import Mathlib

/-!
Verification of the conductor session/worktree core.

Shallow embedding of the Python sources:
  conductor/sessions/session.py    (Session: buffer, monitor, to_dict)
  conductor/sessions/registry.py   (SessionRegistry: create, resume)
  conductor/proxy/pty_wrapper.py   (UnixPTYProcess.spawn env handling, factory)
  conductor/worktrees/manager.py   (WorktreeManager: create branch choice, gc, WorktreeInfo)

Machine bytes are modelled as Nat, terminal text as List Char, Python floats
(timestamps) as Rat, Python dicts as association lists with unique keys.
-/

namespace Conductor

/-! ### Python-style character classes and list utilities -/

/-- Python regex class backslash-s restricted to ASCII whitespace, which is all
the sources ever feed it: space, tab, newline, carriage return, vertical tab,
form feed. -/
def isSp (c : Char) : Bool :=
  c == ' ' || c == '\t' || c == '\n' || c == '\r' || c == '\x0b' || c == '\x0c'

/-- Greedy consumption of characters satisfying p (regex X* for a class X),
returning the rest. -/
def dropW (p : Char → Bool) : List Char → List Char
  | [] => []
  | c :: l => if p c then dropW p l else c :: l

/-- Literal prefix test (regex literal match at the current position). -/
def isPre : List Char → List Char → Bool
  | [], _ => true
  | _ :: _, [] => false
  | p :: ps, c :: cs => p == c && isPre ps cs

/-- Whether pat occurs as a contiguous substring of l. -/
def hasInfix (pat : List Char) : List Char → Bool
  | [] => pat.isEmpty
  | c :: rest => isPre pat (c :: rest) || hasInfix pat rest

/-- Number of positions of l at which pat occurs (occurrences may overlap). -/
def countOcc (pat : List Char) : List Char → Nat
  | [] => 0
  | c :: rest => (if isPre pat (c :: rest) then 1 else 0) + countOcc pat rest

/-- Python str.rstrip(): remove trailing whitespace. -/
def pyRstrip (l : List Char) : List Char :=
  (dropW isSp l.reverse).reverse

/-! ### Session rolling buffer (session.py, Session._append_buffer) -/

/-- Session._append_buffer: extend the buffer with data, then delete the
excess from the front whenever the length exceeds the cap. -/
def appendBuffer {α : Type} (maxBytes : Nat) (buffer data : List α) : List α :=
  if (buffer ++ data).length > maxBytes then
    (buffer ++ data).drop ((buffer ++ data).length - maxBytes)
  else
    buffer ++ data

theorem appendBuffer_eq_drop {α : Type} (m : Nat) (b d : List α) :
    appendBuffer m b d = (b ++ d).drop ((b ++ d).length - m) := by
  unfold appendBuffer
  split
  · rfl
  · next h =>
      have : (b ++ d).length - m = 0 := by omega
      rw [this, List.drop_zero]

theorem appendBuffer_length_cap {α : Type} (m : Nat) (b d : List α) :
    (appendBuffer m b d).length ≤ m := by
  unfold appendBuffer
  split
  · next h => simp only [List.length_drop]; omega
  · next h => omega

/-- Claim C4: for every session and every sequence of appended PTY output
chunks, the rolling buffer's length never exceeds the cap after any append,
and when the cap is exceeded the excess is evicted from the front (the
surviving buffer is the trailing cap-sized slice of old buffer ++ data, so
the oldest bytes are dropped first). -/
theorem buffer_cap_and_front_eviction (maxBytes : Nat) (buffer data : List Nat) :
    (appendBuffer maxBytes buffer data).length ≤ maxBytes ∧
    appendBuffer maxBytes buffer data
      = (buffer ++ data).drop ((buffer ++ data).length - maxBytes) ∧
    (∀ (chunks : List (List Nat)) (c : List Nat) (b0 : List Nat),
      ((chunks ++ [c]).foldl (appendBuffer maxBytes) b0).length ≤ maxBytes) := by
  refine ⟨appendBuffer_length_cap _ _ _, appendBuffer_eq_drop _ _ _, ?_⟩
  intro chunks c b0
  rw [List.foldl_append]
  exact appendBuffer_length_cap _ _ _

/-! ### Keyword-argument compatibility facts (registry.py / session.py / pty_wrapper.py)

Python raises TypeError when a call site passes a keyword argument the callee
does not declare.  The parameter lists below are transcribed verbatim from the
source so that call-site/signature mismatches become provable facts. -/

/-- Parameters of Session.__init__ (session.py lines 54-58). -/
def sessionInitParams : List String :=
  ["name", "command", "session_id", "cwd", "on_exit", "env",
   "resume_pattern", "resume_flag", "stop_sequence"]

/-- Keyword arguments SessionRegistry.create passes to Session(...)
(registry.py lines 106-117). -/
def registryCreateSessionKwargs : List String :=
  ["name", "command", "session_id", "cwd", "on_exit", "env",
   "resume_pattern", "resume_flag", "resume_command", "stop_sequence"]

/-- Parameters of the PTYProcess factory (pty_wrapper.py line 234). -/
def ptyFactoryParams : List String := ["command", "cwd"]

/-- Keyword arguments Session.__init__ passes to PTYProcess(...)
(session.py line 63). -/
def sessionPtyCallKwargs : List String := ["command", "cwd", "env"]

/-! ### Session.to_dict projection (session.py, Session.to_dict) -/

/-- Python truthiness of an optional string (None and the empty string are
falsy). -/
def pyTruthy : Option String → Bool
  | none => false
  | some s => !s.isEmpty

/-- The attributes of a Session that to_dict reads. -/
structure SessionState where
  id : String
  name : String
  command : String
  status : String
  pid : Option Int
  start_time : Option Rat
  created_at : Option String
  exit_code : Option Int
  cwd : Option String
  rows : Nat
  cols : Nat
  resize_source : Option String
  resume_id : Option String
  resume_flag : Option String

/-- The keys of the dict built by Session.to_dict: twelve unconditional keys,
then resume_id and resume_flag only when truthy.  No other key is ever
written. -/
def sessionToDictKeys (s : SessionState) : List String :=
  ["id", "name", "command", "status", "pid", "start_time", "created_at",
   "exit_code", "cwd", "rows", "cols", "resize_source"]
  ++ (if pyTruthy s.resume_id then ["resume_id"] else [])
  ++ (if pyTruthy s.resume_flag then ["resume_flag"] else [])

/-! ### Child environment construction (pty_wrapper.py, UnixPTYProcess.spawn) -/

/-- Python dict assignment env[k] = v on an association list with unique keys:
replace in place if present, else append. -/
def envSet (e : List (String × String)) (k v : String) : List (String × String) :=
  if e.any (fun kv => kv.1 == k) then
    e.map (fun kv => if kv.1 == k then (k, v) else kv)
  else
    e ++ [(k, v)]

/-- UnixPTYProcess.spawn builds the child environment from the daemon process
environment alone: copy os.environ, set TERM, delete every key beginning with
CLAUDE.  The caller-supplied env mapping is not a parameter of spawn at all. -/
def spawnChildEnv (procEnv : List (String × String)) : List (String × String) :=
  (envSet procEnv "TERM" "xterm-256color").filter
    (fun kv => !(String.isPrefixOf "CLAUDE" kv.1))

/-- Overlaying a caller-supplied mapping onto an environment (dict.update). -/
def envOverlay (e caller : List (String × String)) : List (String × String) :=
  caller.foldl (fun acc kv => envSet acc kv.1 kv.2) e

/-- Modelled from the claim for comparison with the source: the child
environment claim C2 describes, namely the daemon environment with TERM set,
CLAUDE-prefixed variables removed, and the caller-supplied env overlaid on
top. -/
def spawnEnvPerClaim (procEnv caller : List (String × String)) :
    List (String × String) :=
  envOverlay (spawnChildEnv procEnv) caller

/-! ### SessionRegistry.resume command construction (registry.py lines 155-170) -/

/-- A resumable-session metadata record as SessionRegistry.resume reads it:
the dict fields that resume() accesses.  Records originate either from
Session.to_dict() or from the persisted JSON written from it. -/
structure ResumableMeta where
  name : String
  command : String
  cwd : Option String
  resume_id : Option String
  resume_flag : Option String
  resume_command : Option String
deriving DecidableEq

/-- The ResumableMeta projection of Session.to_dict(): resume_id/resume_flag
carried over only when truthy, and resume_command always absent because
to_dict never writes that key. -/
def metaOfSessionDict (s : SessionState) : ResumableMeta :=
  { name := s.name
    command := s.command
    cwd := s.cwd
    resume_id := if pyTruthy s.resume_id then s.resume_id else none
    resume_flag := if pyTruthy s.resume_flag then s.resume_flag else none
    resume_command := none }

/-- Attempt to match the re.sub pattern of SessionRegistry.resume — literally
backslash-s* flag backslash-s+ backslash-S+ — at the head of l.  On success
return the remainder after the match.  This is Python's semantics whenever the
flag is nonempty and whitespace-free (then the greedy character classes and
the literal are disjoint, so no backtracking can succeed); the nonempty guard
keeps the embedding honest at the degenerate empty flag. -/
def tryMatch (flag l : List Char) : Option (List Char) :=
  if isPre flag (dropW isSp l) && !flag.isEmpty then
    match (dropW isSp l).drop flag.length with
    | [] => none
    | c :: rest =>
      if isSp c then
        match dropW isSp (c :: rest) with
        | [] => none
        | d :: rest2 => some (dropW (fun x => !(isSp x)) (d :: rest2))
      else none
  else none

/-- Fuelled single left-to-right pass of re.sub(pattern, empty, l): at each
position try the pattern; on a match delete it and continue after it, never
rescanning the produced output; otherwise keep the character and advance.
Fuel at least l.length makes the zero case unreachable. -/
def subAllF (flag : List Char) : Nat → List Char → List Char
  | 0, l => l
  | _ + 1, [] => []
  | fuel + 1, c :: rest =>
    match tryMatch flag (c :: rest) with
    | some r => subAllF flag fuel r
    | none => c :: subAllF flag fuel rest

/-- re.sub deleting every match of the resume pattern, as in
SessionRegistry.resume. -/
def subAll (flag l : List Char) : List Char := subAllF flag l.length l

/-- The token-based branch of SessionRegistry.resume: strip previous
flag/token pairs, rstrip, then append a space, the flag, a space, and the
captured resume id. -/
def tokenResume (flag rid cmd : List Char) : List Char :=
  pyRstrip (subAll flag cmd) ++ ' ' :: flag ++ ' ' :: rid

/-- The command SessionRegistry.resume hands to create(): none models the
ValueError when no truthy resume_id is stored; a truthy resume_command is
used verbatim; otherwise the token-based branch runs with the stored flag or
the default flag. -/
def resumeNewCommand (meta : ResumableMeta) : Option String :=
  if !pyTruthy meta.resume_id then none
  else if pyTruthy meta.resume_command then meta.resume_command
  else
    some (String.mk (tokenResume (meta.resume_flag.getD "--resume").toList
      (meta.resume_id.getD "").toList meta.command.toList))

theorem all_filter_self {α : Type} (p : α → Bool) (l : List α) :
    (l.filter p).all p = true := by
  induction l with
  | nil => rfl
  | cons x xs ih => cases h : p x <;> simp [List.filter_cons, h, ih]

/-- Claim C1 (code bug): SessionRegistry.create passes a resume_command
keyword that Session.__init__ does not declare (a TypeError on every create),
and Session.to_dict never emits a resume_command key, so the stored metadata
that resume() reads can never satisfy the resume_command branch: a codex
session with a stored token resumes as a token-appended command instead of
the policy's verbatim resume_command. -/
theorem resume_command_policy_unreachable :
    registryCreateSessionKwargs.contains "resume_command" = true ∧
    sessionInitParams.contains "resume_command" = false ∧
    (∀ s : SessionState, (sessionToDictKeys s).contains "resume_command" = false) ∧
    resumeNewCommand { name := "s1", command := "codex", cwd := none
                       resume_id := some "tok", resume_flag := none
                       resume_command := none }
      = some "codex --resume tok" := by
  refine ⟨by decide, by decide, ?_, by decide⟩
  intro s
  unfold sessionToDictKeys
  cases h1 : pyTruthy s.resume_id <;> cases h2 : pyTruthy s.resume_flag <;> decide

/-- Claim C2 (code bug): Session.__init__ passes an env keyword the
PTYProcess factory does not declare (a TypeError on every spawn), and the
child environment UnixPTYProcess.spawn builds depends only on the daemon
process environment — TERM is set and CLAUDE-prefixed variables are removed,
but the caller-supplied mapping is never overlaid, unlike the environment the
claim describes. -/
theorem spawn_env_never_overlays_caller :
    sessionPtyCallKwargs.contains "env" = true ∧
    ptyFactoryParams.contains "env" = false ∧
    spawnChildEnv [] = [("TERM", "xterm-256color")] ∧
    spawnEnvPerClaim [] [("FOO", "1")] = [("TERM", "xterm-256color"), ("FOO", "1")] ∧
    (∀ procEnv : List (String × String),
      (spawnChildEnv procEnv).all (fun kv => !(String.isPrefixOf "CLAUDE" kv.1)) = true) := by
  refine ⟨by decide, by decide, by decide, by decide, ?_⟩
  intro procEnv
  exact all_filter_self _ _

/-- Claim C3 (counterexample): starting from the stored command
claude --resume--resume, a first resume() yields
claude --resume--resume --resume id1 and a second resume() yields
claude --resume id1 --resume id2 — the single left-to-right re.sub pass fails
to remove a flag/token pair created by a deletion it has already scanned
past, so resuming twice produces a command with two occurrences of the
resume flag, contradicting the claim. -/
theorem resume_strip_counterexample :
    resumeNewCommand { name := "s1", command := "claude --resume--resume"
                       cwd := none, resume_id := some "id1"
                       resume_flag := some "--resume", resume_command := none }
      = some "claude --resume--resume --resume id1" ∧
    resumeNewCommand { name := "s1"
                       command := "claude --resume--resume --resume id1"
                       cwd := none, resume_id := some "id2"
                       resume_flag := some "--resume", resume_command := none }
      = some "claude --resume id1 --resume id2" ∧
    countOcc "--resume".toList ("claude --resume id1 --resume id2").toList = 2 := by
  exact ⟨by decide, by decide, by decide⟩

/-! ### Lemmas about the character scanners -/

theorem dropW_cons_pos {p : Char → Bool} {c : Char} (l : List Char) (h : p c = true) :
    dropW p (c :: l) = dropW p l := by
  simp [dropW, h]

theorem dropW_cons_neg {p : Char → Bool} {c : Char} (l : List Char) (h : p c = false) :
    dropW p (c :: l) = c :: l := by
  simp [dropW, h]

theorem dropW_decomp (p : Char → Bool) (l : List Char) :
    ∃ t, l = t ++ dropW p l ∧ t.all p = true := by
  induction l with
  | nil => exact ⟨[], rfl, rfl⟩
  | cons c rest ih =>
      cases h : p c
      · exact ⟨[], by rw [dropW_cons_neg _ h]; rfl, rfl⟩
      · obtain ⟨t, ht, hall⟩ := ih
        refine ⟨c :: t, ?_, ?_⟩
        · rw [dropW_cons_pos _ h, List.cons_append, ← ht]
        · simp [h, hall]

theorem dropW_head_false {p : Char → Bool} {l : List Char} {c : Char} {r : List Char}
    (h : dropW p l = c :: r) : p c = false := by
  induction l with
  | nil => simp [dropW] at h
  | cons x xs ih =>
      cases hx : p x
      · rw [dropW_cons_neg _ hx] at h
        cases h
        exact hx
      · rw [dropW_cons_pos _ hx] at h
        exact ih h

theorem dropW_eq_nil_of_all {p : Char → Bool} {l : List Char} (h : l.all p = true) :
    dropW p l = [] := by
  induction l with
  | nil => rfl
  | cons c rest ih =>
      simp only [List.all_cons, Bool.and_eq_true] at h
      rw [dropW_cons_pos _ h.1]
      exact ih h.2

theorem all_of_dropW_eq_nil {p : Char → Bool} {l : List Char} (h : dropW p l = []) :
    l.all p = true := by
  induction l with
  | nil => rfl
  | cons c rest ih =>
      cases hc : p c
      · rw [dropW_cons_neg _ hc] at h
        cases h
      · rw [dropW_cons_pos _ hc] at h
        simp [hc, ih h]

theorem dropW_append_of_ne_nil {p : Char → Bool} {a : List Char} (b : List Char)
    (h : dropW p a ≠ []) : dropW p (a ++ b) = dropW p a ++ b := by
  induction a with
  | nil => exact absurd rfl h
  | cons c a' ih =>
      cases hc : p c
      · rw [dropW_cons_neg _ hc, List.cons_append, dropW_cons_neg _ hc]
      · rw [dropW_cons_pos _ hc] at h
        rw [List.cons_append, dropW_cons_pos _ hc, dropW_cons_pos _ hc, ih h]

theorem dropW_idem (p : Char → Bool) (l : List Char) :
    dropW p (dropW p l) = dropW p l := by
  cases h : dropW p l with
  | nil => rfl
  | cons c r => exact dropW_cons_neg _ (dropW_head_false h)

theorem dropW_length_le (p : Char → Bool) (l : List Char) :
    (dropW p l).length ≤ l.length := by
  induction l with
  | nil => exact Nat.le_refl _
  | cons c rest ih =>
      cases hc : p c
      · rw [dropW_cons_neg _ hc]
      · rw [dropW_cons_pos _ hc]
        exact Nat.le_succ_of_le ih

theorem isPre_iff {pat l : List Char} : isPre pat l = true ↔ ∃ t, l = pat ++ t := by
  induction pat generalizing l with
  | nil => simp [isPre]
  | cons p ps ih =>
      cases l with
      | nil =>
          simp only [isPre]
          constructor
          · intro h; cases h
          · rintro ⟨t, ht⟩; cases ht
      | cons c cs =>
          simp only [isPre, Bool.and_eq_true, beq_iff_eq]
          constructor
          · rintro ⟨rfl, h⟩
            obtain ⟨t, rfl⟩ := ih.mp h
            exact ⟨t, rfl⟩
          · rintro ⟨t, ht⟩
            rw [List.cons_append] at ht
            cases ht
            exact ⟨rfl, ih.mpr ⟨t, rfl⟩⟩

theorem isPre_append_self (pat t : List Char) : isPre pat (pat ++ t) = true :=
  isPre_iff.mpr ⟨t, rfl⟩

theorem isPre_length {pat l : List Char} (h : isPre pat l = true) :
    pat.length ≤ l.length := by
  obtain ⟨t, rfl⟩ := isPre_iff.mp h
  rw [List.length_append]
  omega

theorem isPre_append_ext {pat u : List Char} (v : List Char)
    (h : isPre pat u = true) : isPre pat (u ++ v) = true := by
  obtain ⟨t, rfl⟩ := isPre_iff.mp h
  rw [List.append_assoc]
  exact isPre_append_self _ _

theorem isPre_split {pat a b : List Char} (h : isPre pat (a ++ b) = true) :
    (∃ t, a = pat ++ t) ∨ (∃ k, pat = a ++ k ∧ isPre k b = true) := by
  obtain ⟨t, ht⟩ := isPre_iff.mp h
  rcases List.append_eq_append_iff.mp ht with ⟨a', h1, h2⟩ | ⟨c', h1, h2⟩
  · exact Or.inr ⟨a', h1, isPre_iff.mpr ⟨t, h2⟩⟩
  · exact Or.inl ⟨c', h1⟩

theorem isPre_head {p c : Char} {ps l : List Char}
    (h : isPre (p :: ps) (c :: l) = true) : p = c := by
  simp only [isPre, Bool.and_eq_true, beq_iff_eq] at h
  exact h.1

theorem hasInfix_nil_pat (l : List Char) : hasInfix [] l = true := by
  cases l with
  | nil => rfl
  | cons c rest => simp [hasInfix, isPre]

theorem hasInfix_of_isPre {pat l : List Char} (hne : pat ≠ [])
    (h : isPre pat l = true) : hasInfix pat l = true := by
  cases l with
  | nil =>
      obtain ⟨t, ht⟩ := isPre_iff.mp h
      cases pat with
      | nil => exact absurd rfl hne
      | cons p ps => cases ht
  | cons c rest => simp [hasInfix, h]

theorem hasInfix_append_right {pat b : List Char} (a : List Char)
    (h : hasInfix pat b = true) : hasInfix pat (a ++ b) = true := by
  induction a with
  | nil => exact h
  | cons x a' ih => simp [hasInfix, ih]

theorem hasInfix_append_left {pat a : List Char} (b : List Char)
    (h : hasInfix pat a = true) : hasInfix pat (a ++ b) = true := by
  induction a with
  | nil =>
      simp only [hasInfix, List.isEmpty_iff] at h
      subst h
      exact hasInfix_nil_pat _
  | cons x a' ih =>
      simp only [hasInfix, Bool.or_eq_true] at h
      simp only [List.cons_append, hasInfix, Bool.or_eq_true]
      rcases h with h | h
      · left
        have h2 := isPre_append_ext b h
        rw [List.cons_append] at h2
        exact h2
      · right
        exact ih h

theorem hasInfix_cons_elim {pat : List Char} {c : Char} {rest : List Char}
    (h : hasInfix pat (c :: rest) = false) :
    isPre pat (c :: rest) = false ∧ hasInfix pat rest = false := by
  simp only [hasInfix, Bool.or_eq_false_iff] at h
  exact h

/-! ### Behavior of the resume-pattern scanner -/

theorem tryMatch_none_of_no_occ {flag l : List Char} (hne : flag ≠ [])
    (h : hasInfix flag l = false) : tryMatch flag l = none := by
  have hg : isPre flag (dropW isSp l) = false := by
    cases hp : isPre flag (dropW isSp l)
    · rfl
    · exfalso
      obtain ⟨t, ht, _⟩ := dropW_decomp isSp l
      have hin : hasInfix flag (dropW isSp l) = true := hasInfix_of_isPre hne hp
      have : hasInfix flag l = true := by
        rw [ht]
        exact hasInfix_append_right t hin
      rw [this] at h
      cases h
  unfold tryMatch
  rw [hg]
  rfl

theorem subAllF_nil (flag : List Char) (fuel : Nat) : subAllF flag fuel [] = [] := by
  cases fuel <;> rfl

theorem subAllF_id_of_no_occ {flag : List Char} (hne : flag ≠ []) :
    ∀ fuel l, hasInfix flag l = false → subAllF flag fuel l = l := by
  intro fuel
  induction fuel with
  | zero => intro l _; rfl
  | succ n ih =>
      intro l h
      cases l with
      | nil => rfl
      | cons c rest =>
          obtain ⟨_, h2⟩ := hasInfix_cons_elim h
          simp only [subAllF, tryMatch_none_of_no_occ hne h]
          rw [ih rest h2]

theorem subAll_id_of_no_occ {flag l : List Char} (hne : flag ≠ [])
    (h : hasInfix flag l = false) : subAll flag l = l :=
  subAllF_id_of_no_occ hne _ l h

theorem pyRstrip_fix_iff {l : List Char} :
    pyRstrip l = l ↔ dropW isSp l.reverse = l.reverse := by
  unfold pyRstrip
  constructor
  · intro h
    have := congrArg List.reverse h
    rwa [List.reverse_reverse] at this
  · intro h
    rw [h, List.reverse_reverse]

theorem pyRstrip_idem (l : List Char) : pyRstrip (pyRstrip l) = pyRstrip l := by
  unfold pyRstrip
  rw [List.reverse_reverse, dropW_idem]

theorem pyRstrip_decomp (l : List Char) :
    ∃ t, l = pyRstrip l ++ t ∧ t.all isSp = true := by
  obtain ⟨t, ht, hall⟩ := dropW_decomp isSp l.reverse
  refine ⟨t.reverse, ?_, ?_⟩
  · have := congrArg List.reverse ht
    rw [List.reverse_reverse, List.reverse_append] at this
    exact this
  · simpa using hall

theorem hasInfix_pyRstrip {flag l : List Char} (h : hasInfix flag l = false) :
    hasInfix flag (pyRstrip l) = false := by
  cases hp : hasInfix flag (pyRstrip l)
  · rfl
  · exfalso
    obtain ⟨t, ht, _⟩ := pyRstrip_decomp l
    have : hasInfix flag l = true := by
      rw [ht]
      exact hasInfix_append_left t hp
    rw [this] at h
    cases h

theorem pyRstrip_fix_tail {r : Char} {R' : List Char}
    (h : pyRstrip (r :: R') = r :: R') : pyRstrip R' = R' := by
  rw [pyRstrip_fix_iff] at h ⊢
  cases hR : R'.reverse with
  | nil => rfl
  | cons c rest =>
      rw [List.reverse_cons, hR] at h
      have hc : isSp c = false := by
        cases hc : isSp c
        · rfl
        · exfalso
          rw [List.cons_append, dropW_cons_pos _ hc] at h
          have := congrArg List.length h
          have hle := dropW_length_le isSp (rest ++ [r])
          simp only [List.length_append, List.length_cons] at this hle
          omega
      exact dropW_cons_neg _ hc

theorem space_isSp : isSp ' ' = true := by decide

theorem flag_no_space {flag : List Char} (hfs : flag.all (fun c => !(isSp c)) = true)
    {c : Char} (hc : c ∈ flag) : isSp c = false := by
  rw [List.all_eq_true] at hfs
  have := hfs c hc
  simpa using this

theorem tryMatch_boundary {flag rid : List Char} (hf : flag ≠ [])
    (hfs : flag.all (fun c => !(isSp c)) = true)
    (hr : rid ≠ []) (hrs : rid.all (fun c => !(isSp c)) = true) :
    tryMatch flag (' ' :: (flag ++ ' ' :: rid)) = some [] := by
  obtain ⟨f, fl, rfl⟩ : ∃ f fl, flag = f :: fl := by
    cases flag with
    | nil => exact absurd rfl hf
    | cons f fl => exact ⟨f, fl, rfl⟩
  obtain ⟨r0, rl, rfl⟩ : ∃ r0 rl, rid = r0 :: rl := by
    cases rid with
    | nil => exact absurd rfl hr
    | cons r0 rl => exact ⟨r0, rl, rfl⟩
  have hfsp : isSp f = false := flag_no_space hfs (List.mem_cons_self _ _)
  have hrsp : isSp r0 = false := flag_no_space hrs (List.mem_cons_self _ _)
  have hdrop : dropW isSp (' ' :: ((f :: fl) ++ ' ' :: (r0 :: rl)))
      = (f :: fl) ++ ' ' :: (r0 :: rl) := by
    rw [dropW_cons_pos _ space_isSp, List.cons_append, dropW_cons_neg _ hfsp]
  have hrs' : rl.all (fun c => !(isSp c)) = true := by
    simp only [List.all_cons, Bool.and_eq_true] at hrs
    exact hrs.2
  have hnil : dropW (fun x => !(isSp x)) rl = [] := dropW_eq_nil_of_all hrs'
  unfold tryMatch
  rw [hdrop, isPre_append_self, List.drop_left]
  simp [dropW, space_isSp, hrsp, hnil]

theorem tryMatch_boundary_none {flag tailChars : List Char} (hf : flag ≠ [])
    (hfs : flag.all (fun c => !(isSp c)) = true)
    {r : Char} {R' : List Char}
    (hinf : hasInfix flag (r :: R') = false)
    (hfix : pyRstrip (r :: R') = r :: R') :
    tryMatch flag (r :: (R' ++ ' ' :: tailChars)) = none := by
  have hne : dropW isSp (r :: R') ≠ [] := by
    intro hnil
    have hall : (r :: R').all isSp = true := all_of_dropW_eq_nil hnil
    have hallrev : (r :: R').reverse.all isSp = true := by
      rw [List.all_eq_true] at hall ⊢
      intro c hc
      exact hall c (List.mem_reverse.mp hc)
    have := pyRstrip_fix_iff.mp hfix
    rw [dropW_eq_nil_of_all hallrev] at this
    have := congrArg List.length this
    simp at this
  have hsplit : dropW isSp ((r :: R') ++ ' ' :: tailChars)
      = dropW isSp (r :: R') ++ ' ' :: tailChars :=
    dropW_append_of_ne_nil _ hne
  have hg : isPre flag (dropW isSp ((r :: R') ++ ' ' :: tailChars)) = false := by
    rw [hsplit]
    cases hp : isPre flag (dropW isSp (r :: R') ++ ' ' :: tailChars)
    · rfl
    · exfalso
      rcases isPre_split hp with ⟨t, ht⟩ | ⟨k, hk, hkp⟩
      · -- the match sits inside the stripped live part: flag is an infix of r :: R'
        have hin : hasInfix flag (dropW isSp (r :: R')) = true := by
          rw [ht]
          exact hasInfix_of_isPre hf (isPre_append_self _ _)
        obtain ⟨t0, ht0, _⟩ := dropW_decomp isSp (r :: R')
        have : hasInfix flag (r :: R') = true := by
          rw [ht0]
          exact hasInfix_append_right t0 hin
        rw [this] at hinf
        cases hinf
      · cases k with
        | nil =>
            rw [List.append_nil] at hk
            have hpre : isPre flag flag = true := by
              have h3 := isPre_append_self flag []
              rwa [List.append_nil] at h3
            have hin : hasInfix flag (dropW isSp (r :: R')) = true := by
              rw [← hk]
              exact hasInfix_of_isPre hf hpre
            obtain ⟨t0, ht0, _⟩ := dropW_decomp isSp (r :: R')
            have h2 : hasInfix flag (r :: R') = true := by
              rw [ht0]
              exact hasInfix_append_right t0 hin
            rw [h2] at hinf
            cases hinf
        | cons k0 ks =>
            have : k0 = ' ' := isPre_head hkp
            subst this
            have hmem : (' ' : Char) ∈ flag := by
              rw [hk]
              exact List.mem_append.mpr (Or.inr (List.mem_cons_self _ _))
            have := flag_no_space hfs hmem
            rw [space_isSp] at this
            cases this
  rw [List.cons_append] at hg
  unfold tryMatch
  rw [hg]
  rfl

theorem subAllF_boundary {flag rid : List Char} (hf : flag ≠ [])
    (hfs : flag.all (fun c => !(isSp c)) = true)
    (hr : rid ≠ []) (hrs : rid.all (fun c => !(isSp c)) = true) :
    ∀ fuel R, hasInfix flag R = false → pyRstrip R = R → R.length < fuel →
      subAllF flag fuel (R ++ ' ' :: (flag ++ ' ' :: rid)) = R := by
  intro fuel
  induction fuel with
  | zero => intro R _ _ hlen; omega
  | succ n ih =>
      intro R hinf hfix hlen
      cases R with
      | nil =>
          rw [List.nil_append]
          show subAllF flag (n + 1) (' ' :: (flag ++ ' ' :: rid)) = []
          simp only [subAllF, tryMatch_boundary hf hfs hr hrs]
          exact subAllF_nil _ _
      | cons r R' =>
          have htm : tryMatch flag (r :: (R' ++ ' ' :: (flag ++ ' ' :: rid))) = none :=
            tryMatch_boundary_none hf hfs hinf hfix
          rw [List.cons_append]
          simp only [subAllF, htm]
          have hinf' : hasInfix flag R' = false := (hasInfix_cons_elim hinf).2
          have hfix' : pyRstrip R' = R' := pyRstrip_fix_tail hfix
          have hlen' : R'.length < n := by
            simp only [List.length_cons] at hlen
            omega
          rw [ih R' hinf' hfix' hlen']

theorem subAll_strip_appended {flag rid : List Char} (hf : flag ≠ [])
    (hfs : flag.all (fun c => !(isSp c)) = true)
    (hr : rid ≠ []) (hrs : rid.all (fun c => !(isSp c)) = true)
    (R : List Char) (hinf : hasInfix flag R = false) (hfix : pyRstrip R = R) :
    subAll flag (R ++ ' ' :: (flag ++ ' ' :: rid)) = R := by
  unfold subAll
  refine subAllF_boundary hf hfs hr hrs _ R hinf hfix ?_
  rw [List.length_append, List.length_cons]
  omega

theorem countOcc_zero_of_no_match {pat l : List Char}
    (h : ∀ s t, l = s ++ t → isPre pat t = false) : countOcc pat l = 0 := by
  induction l with
  | nil => rfl
  | cons c rest ih =>
      have h0 : isPre pat (c :: rest) = false := h [] (c :: rest) rfl
      simp only [countOcc, h0, Bool.false_eq_true, if_false, Nat.zero_add]
      exact ih (fun s t hst => h (c :: s) t (by rw [hst, List.cons_append]))

theorem countOcc_append_skip {pat a b : List Char}
    (h : ∀ s t, a = s ++ t → t ≠ [] → isPre pat (t ++ b) = false) :
    countOcc pat (a ++ b) = countOcc pat b := by
  induction a with
  | nil => rfl
  | cons c a' ih =>
      have h0 : isPre pat (c :: (a' ++ b)) = false := by
        have h1 := h [] (c :: a') rfl (by intro hx; cases hx)
        rwa [List.cons_append] at h1
      rw [List.cons_append]
      simp only [countOcc, h0, Bool.false_eq_true, if_false, Nat.zero_add]
      exact ih (fun s t hst htne => h (c :: s) t (by rw [hst, List.cons_append]) htne)

theorem countOcc_flag_tail_zero {flag id2 fl : List Char} {f : Char}
    (hflag : flag = f :: fl) (hfs : flag.all (fun c => !(isSp c)) = true)
    (hi : hasInfix flag id2 = false) :
    countOcc flag (fl ++ ' ' :: id2) = 0 := by
  have hf : flag ≠ [] := by rw [hflag]; intro hx; cases hx
  refine countOcc_zero_of_no_match ?_
  intro s t hst
  cases hp : isPre flag t
  · rfl
  · exfalso
    rcases List.append_eq_append_iff.mp hst with ⟨a', _, h2⟩ | ⟨c', h1, h2⟩
    · cases a' with
      | nil =>
          rw [List.nil_append] at h2
          subst h2
          have hsp : f = ' ' := by
            rw [hflag] at hp
            exact isPre_head hp
          have : isSp f = false :=
            flag_no_space hfs (by rw [hflag]; exact List.mem_cons_self _ _)
          rw [hsp, space_isSp] at this
          cases this
      | cons a0 a'' =>
          rw [List.cons_append] at h2
          cases h2
          -- id2 = a'' ++ t with isPre flag t
          have htne : t ≠ [] := by
            intro hx
            subst hx
            rw [hflag] at hp
            cases hp
          have hin : hasInfix flag t = true := hasInfix_of_isPre hf hp
          have h6 : hasInfix flag (a'' ++ t) = true := hasInfix_append_right a'' hin
          rw [h6] at hi
          cases hi
    · subst h2
      rcases isPre_split hp with ⟨u, hu⟩ | ⟨k, hk, hkp⟩
      · have hlen1 : flag.length ≤ c'.length := by
          rw [hu, List.length_append]
          omega
        have hlen2 : c'.length ≤ fl.length := by
          have := congrArg List.length h1
          rw [List.length_append] at this
          omega
        have : flag.length = fl.length + 1 := by rw [hflag]; rfl
        omega
      · cases k with
        | nil =>
            rw [List.append_nil] at hk
            have hlen2 : c'.length ≤ fl.length := by
              have := congrArg List.length h1
              rw [List.length_append] at this
              omega
            have : flag.length = fl.length + 1 := by rw [hflag]; rfl
            rw [hk] at this
            omega
        | cons k0 ks =>
            have hk0 : k0 = ' ' := isPre_head hkp
            subst hk0
            have hmem : (' ' : Char) ∈ flag := by
              rw [hk]
              exact List.mem_append.mpr (Or.inr (List.mem_cons_self _ _))
            have := flag_no_space hfs hmem
            rw [space_isSp] at this
            cases this

theorem countOcc_boundary_one {flag id2 R : List Char} (hf : flag ≠ [])
    (hfs : flag.all (fun c => !(isSp c)) = true)
    (hR : hasInfix flag R = false) (hi : hasInfix flag id2 = false) :
    countOcc flag (R ++ ' ' :: (flag ++ ' ' :: id2)) = 1 := by
  obtain ⟨f, fl, hflag⟩ : ∃ f fl, flag = f :: fl := by
    cases flag with
    | nil => exact absurd rfl hf
    | cons f fl => exact ⟨f, fl, rfl⟩
  have hfsp : isSp f = false :=
    flag_no_space hfs (by rw [hflag]; exact List.mem_cons_self _ _)
  have hassoc : R ++ ' ' :: (flag ++ ' ' :: id2)
      = (R ++ [' ']) ++ (flag ++ ' ' :: id2) := by
    rw [List.append_assoc]
    rfl
  rw [hassoc]
  have hskip : countOcc flag ((R ++ [' ']) ++ (flag ++ ' ' :: id2))
      = countOcc flag (flag ++ ' ' :: id2) := by
    refine countOcc_append_skip ?_
    intro s t hst htne
    cases hp : isPre flag (t ++ (flag ++ ' ' :: id2))
    · rfl
    · exfalso
      rcases List.append_eq_append_iff.mp hst with ⟨a', _, h2⟩ | ⟨c', h1, h2⟩
      · cases a' with
        | nil =>
            rw [List.nil_append] at h2
            subst h2
            have hsp : f = ' ' := by
              rw [hflag] at hp
              exact isPre_head hp
            rw [hsp, space_isSp] at hfsp
            cases hfsp
        | cons a0 a'' =>
            rw [List.cons_append] at h2
            have h5 : ([] : List Char) = a'' ++ t := by injection h2
            rcases List.append_eq_nil.mp h5.symm with ⟨_, h6⟩
            exact htne h6
      · subst h2
        rw [List.append_assoc] at hp
        rcases isPre_split hp with ⟨u, hu⟩ | ⟨k, hk, hkp⟩
        · have hin : hasInfix flag c' = true := by
            refine hasInfix_of_isPre hf (isPre_iff.mpr ⟨u, hu⟩)
          have : hasInfix flag R = true := by
            rw [h1]
            exact hasInfix_append_right s hin
          rw [this] at hR
          cases hR
        · cases k with
          | nil =>
              rw [List.append_nil] at hk
              have hin : hasInfix flag c' = true := by
                refine hasInfix_of_isPre hf (isPre_iff.mpr ⟨[], ?_⟩)
                rw [List.append_nil, hk]
              have : hasInfix flag R = true := by
                rw [h1]
                exact hasInfix_append_right s hin
              rw [this] at hR
              cases hR
          | cons k0 ks =>
              have hk0 : k0 = ' ' := isPre_head hkp
              subst hk0
              have hmem : (' ' : Char) ∈ flag := by
                rw [hk]
                exact List.mem_append.mpr (Or.inr (List.mem_cons_self _ _))
              have := flag_no_space hfs hmem
              rw [space_isSp] at this
              cases this
  rw [hskip]
  have hzero := countOcc_flag_tail_zero hflag hfs hi
  have hone : isPre flag (flag ++ ' ' :: id2) = true := isPre_append_self _ _
  conv_lhs => rw [hflag, List.cons_append]
  rw [hflag] at hzero hone
  rw [List.cons_append] at hone
  simp [countOcc, hone, hzero]

/-- Claim C3 (amended): for stored resumable metadata without a
resume_command, provided the original command does not contain the resume
flag as a substring and the flag and captured tokens are nonempty,
whitespace-free, and (for the new token) flag-free, resume() produces
rstrip(command) ++ " flag token"; a second resume() strips exactly the
previously appended pair, yielding rstrip(command) ++ " flag token2", a
command with exactly one occurrence of the resume flag — no accumulation
across resumes. -/
theorem resume_strip_amended (flag id1 id2 cmd : List Char)
    (hf : flag ≠ []) (hfs : flag.all (fun c => !(isSp c)) = true)
    (h1 : id1 ≠ []) (h1s : id1.all (fun c => !(isSp c)) = true)
    (h2 : id2 ≠ []) (h2s : id2.all (fun c => !(isSp c)) = true)
    (hc : hasInfix flag cmd = false) (hi : hasInfix flag id2 = false) :
    tokenResume flag id1 cmd = pyRstrip cmd ++ ' ' :: (flag ++ ' ' :: id1) ∧
    tokenResume flag id2 (tokenResume flag id1 cmd)
      = pyRstrip cmd ++ ' ' :: (flag ++ ' ' :: id2) ∧
    countOcc flag (tokenResume flag id2 (tokenResume flag id1 cmd)) = 1 := by
  have e1 : tokenResume flag id1 cmd = pyRstrip cmd ++ ' ' :: (flag ++ ' ' :: id1) := by
    unfold tokenResume
    rw [subAll_id_of_no_occ hf hc]
    simp [List.cons_append, List.append_assoc]
  have hfix : pyRstrip (pyRstrip cmd) = pyRstrip cmd := pyRstrip_idem cmd
  have hinfR : hasInfix flag (pyRstrip cmd) = false := hasInfix_pyRstrip hc
  have hstrip : subAll flag (pyRstrip cmd ++ ' ' :: (flag ++ ' ' :: id1))
      = pyRstrip cmd :=
    subAll_strip_appended hf hfs h1 h1s (pyRstrip cmd) hinfR hfix
  have e2 : tokenResume flag id2 (tokenResume flag id1 cmd)
      = pyRstrip cmd ++ ' ' :: (flag ++ ' ' :: id2) := by
    rw [e1]
    unfold tokenResume
    rw [hstrip, hfix]
    simp [List.cons_append, List.append_assoc]
  refine ⟨e1, e2, ?_⟩
  rw [e2]
  exact countOcc_boundary_one hf hfs hinfR hi

/-- Witness for the amended claim C3 at flag "--resume", command "claude",
captured tokens "aaa" then "bbb". -/
theorem resume_strip_amended_witness :
    ("--resume".toList ≠ [] ∧
     "--resume".toList.all (fun c => !(isSp c)) = true ∧
     "aaa".toList ≠ [] ∧ "aaa".toList.all (fun c => !(isSp c)) = true ∧
     "bbb".toList ≠ [] ∧ "bbb".toList.all (fun c => !(isSp c)) = true ∧
     hasInfix "--resume".toList "claude".toList = false ∧
     hasInfix "--resume".toList "bbb".toList = false) ∧
    (tokenResume "--resume".toList "aaa".toList "claude".toList
       = pyRstrip "claude".toList
         ++ ' ' :: ("--resume".toList ++ ' ' :: "aaa".toList) ∧
     tokenResume "--resume".toList "bbb".toList
         (tokenResume "--resume".toList "aaa".toList "claude".toList)
       = pyRstrip "claude".toList
         ++ ' ' :: ("--resume".toList ++ ' ' :: "bbb".toList) ∧
     countOcc "--resume".toList
         (tokenResume "--resume".toList "bbb".toList
           (tokenResume "--resume".toList "aaa".toList "claude".toList)) = 1) := by
  refine ⟨⟨by decide, by decide, by decide, by decide, by decide, by decide,
    by decide, by decide⟩, ?_⟩
  exact resume_strip_amended _ _ _ _ (by decide) (by decide) (by decide) (by decide)
    (by decide) (by decide) (by decide) (by decide)

/-! ### SessionRegistry.create conflict handling (registry.py lines 91-124) -/

/-- The slice of a live Session that the registry's conflict logic inspects. -/
structure LiveSession where
  status : String
deriving DecidableEq

/-- Association-list lookup, mirroring Python dict access (keys unique). -/
def lookupA {β : Type} (k : String) : List (String × β) → Option β
  | [] => none
  | kv :: rest => if kv.1 == k then some kv.2 else lookupA k rest

/-- Association-list key removal (dict.pop(k, None) for the state model). -/
def eraseA {β : Type} (k : String) (l : List (String × β)) : List (String × β) :=
  l.filter (fun kv => !(kv.1 == k))

/-- In-memory registry state: the live map, the resumable map, and the
session ids that have a metadata file on disk. -/
structure RegistryState where
  sessions : List (String × LiveSession)
  resumable : List (String × ResumableMeta)
  metaFiles : List String
deriving DecidableEq

/-- SessionRegistry.remove: pop the live session if present (kill and cleanup
act on the process, not on registry state) and delete its metadata file. -/
def registryRemove (st : RegistryState) (sessionId : String) : RegistryState :=
  match lookupA sessionId st.sessions with
  | none => st
  | some _ =>
      { st with sessions := eraseA sessionId st.sessions
                metaFiles := st.metaFiles.filter (fun f => !(f == sessionId)) }

/-- Registering the freshly started session: dict insert plus metadata save. -/
def registerSession (st : RegistryState) (name : String) (s : LiveSession) :
    RegistryState :=
  { st with sessions := st.sessions ++ [(name, s)]
            metaFiles :=
              if st.metaFiles.contains name then st.metaFiles
              else st.metaFiles ++ [name] }

/-- Whether the Session(...) call in SessionRegistry.create raises TypeError:
Python raises when the call site passes a keyword argument the constructor
does not declare, so this is computed from the transcribed call-site and
signature parameter lists (it evaluates to true: resume_command). -/
def sessionCtorRaises : Bool :=
  registryCreateSessionKwargs.any (fun k => !(sessionInitParams.contains k))

/-- The exception create() dies with at the Session(...) call. -/
def sessionCtorError : String :=
  "TypeError: unexpected keyword argument 'resume_command'"

/-- SessionRegistry.create at the registry-state level, in the source's
statement order: a running live entry with the same name raises before any
mutation; otherwise a non-running live entry is evicted via remove() and any
resumable entry with the name is popped; then the Session(...) constructor
call runs — which raises TypeError whenever the call site passes a keyword
the constructor lacks, aborting create() with the evictions done but nothing
registered (a spawn failure in session.start would abort at the same point,
but sits after the constructor call); only if the constructor call returned
would the session be registered and its metadata saved. -/
def registryCreate (st : RegistryState) (name : String) (s : LiveSession) :
    RegistryState × Option String :=
  match lookupA name st.sessions with
  | some existing =>
      if existing.status == "running" then
        (st, some ("Session '" ++ name ++ "' already exists and is running"))
      else
        let st1 := registryRemove st name
        let st2 := { st1 with resumable := eraseA name st1.resumable }
        if sessionCtorRaises then (st2, some sessionCtorError)
        else (registerSession st2 name s, none)
  | none =>
      let st2 := { st with resumable := eraseA name st.resumable }
      if sessionCtorRaises then (st2, some sessionCtorError)
      else (registerSession st2 name s, none)

theorem lookupA_eraseA {β : Type} (k : String) (l : List (String × β)) :
    lookupA k (eraseA k l) = none := by
  induction l with
  | nil => rfl
  | cons kv rest ih =>
      unfold eraseA at ih ⊢
      cases h : kv.1 == k <;> simp [List.filter_cons, h, lookupA, ih]

theorem lookupA_append {β : Type} (k : String) (a b : List (String × β)) :
    lookupA k (a ++ b)
      = match lookupA k a with
        | some v => some v
        | none => lookupA k b := by
  induction a with
  | nil => rfl
  | cons kv rest ih =>
      rw [List.cons_append]
      cases h : kv.1 == k <;> simp [lookupA, h, ih]

theorem elem_append_self (k : String) (l : List String) :
    List.elem k (l ++ [k]) = true := by
  induction l with
  | nil => simp [List.elem]
  | cons x xs ih =>
      rw [List.cons_append]
      cases h : k == x <;> simp [List.elem, h, ih]

/-- Claim C7 (code bug): the conflict half holds — create() against a running
live session of the same name fails with the conflict error before any
mutation, leaving the registry state unchanged — and the evictions run as
claimed; but create() then always dies with TypeError at the Session(...)
call (its keyword resume_command is not a constructor parameter), after the
non-running live entry was evicted and the resumable entry dropped and
strictly before registration and metadata save, so the new session the claim
promises is never registered. -/
theorem create_aborts_before_registration (st : RegistryState) (name : String)
    (s : LiveSession) :
    (∀ ex, lookupA name st.sessions = some ex → ex.status = "running" →
      registryCreate st name s
        = (st, some ("Session '" ++ name ++ "' already exists and is running"))) ∧
    sessionCtorRaises = true ∧
    ((∀ ex, lookupA name st.sessions = some ex → ex.status ≠ "running") →
      (registryCreate st name s).2 = some sessionCtorError ∧
      lookupA name (registryCreate st name s).1.sessions = none ∧
      lookupA name (registryCreate st name s).1.resumable = none) := by
  have hraise : sessionCtorRaises = true := by decide
  refine ⟨?_, hraise, ?_⟩
  · intro ex hlook hrun
    simp only [registryCreate, hlook]
    rw [hrun]
    simp
  · intro hnr
    cases hlook : lookupA name st.sessions with
    | some ex =>
        have hne : (ex.status == "running") = false := by
          cases h : ex.status == "running"
          · rfl
          · exact absurd (by simpa using h) (hnr ex hlook)
        simp only [registryCreate, hlook, hne, Bool.false_eq_true, if_false,
          hraise, if_true]
        refine ⟨trivial, ?_, ?_⟩
        · show lookupA name (registryRemove st name).sessions = none
          unfold registryRemove
          rw [hlook]
          exact lookupA_eraseA name st.sessions
        · exact lookupA_eraseA name (registryRemove st name).resumable
    | none =>
        simp only [registryCreate, hlook, hraise, if_true]
        exact ⟨trivial, trivial, lookupA_eraseA name st.resumable⟩

/-- Witness for claim C7: a registry holding a running s1 rejects a duplicate
create with the state unchanged; a registry holding an exited live s1 and a
resumable s1 evicts both and then aborts with the constructor TypeError, with
nothing registered under the name. -/
theorem create_aborts_before_registration_witness :
    (lookupA "s1"
        ({ sessions := [("s1", ⟨"running"⟩)], resumable := [],
           metaFiles := ["s1"] } : RegistryState).sessions = some ⟨"running"⟩ ∧
     registryCreate
        { sessions := [("s1", ⟨"running"⟩)], resumable := [], metaFiles := ["s1"] }
        "s1" ⟨"starting"⟩
      = ({ sessions := [("s1", ⟨"running"⟩)], resumable := [], metaFiles := ["s1"] },
         some "Session 's1' already exists and is running")) ∧
    (lookupA "s1"
        ({ sessions := [("s1", ⟨"exited"⟩)],
           resumable := [("s1", ⟨"s1", "claude", none, some "tok",
             some "--resume", none⟩)],
           metaFiles := ["s1"] } : RegistryState).sessions = some ⟨"exited"⟩ ∧
     (registryCreate
        { sessions := [("s1", ⟨"exited"⟩)],
          resumable := [("s1", ⟨"s1", "claude", none, some "tok",
            some "--resume", none⟩)],
          metaFiles := ["s1"] } "s1" ⟨"starting"⟩).2 = some sessionCtorError ∧
     lookupA "s1"
        (registryCreate
          { sessions := [("s1", ⟨"exited"⟩)],
            resumable := [("s1", ⟨"s1", "claude", none, some "tok",
              some "--resume", none⟩)],
            metaFiles := ["s1"] } "s1" ⟨"starting"⟩).1.sessions = none ∧
     lookupA "s1"
        (registryCreate
          { sessions := [("s1", ⟨"exited"⟩)],
            resumable := [("s1", ⟨"s1", "claude", none, some "tok",
              some "--resume", none⟩)],
            metaFiles := ["s1"] } "s1" ⟨"starting"⟩).1.resumable = none) := by
  constructor
  · refine ⟨by decide, ?_⟩
    exact (create_aborts_before_registration
      { sessions := [("s1", ⟨"running"⟩)], resumable := [], metaFiles := ["s1"] }
      "s1" ⟨"starting"⟩).1 ⟨"running"⟩ (by decide) (by decide)
  · refine ⟨by decide, ?_⟩
    refine (create_aborts_before_registration
      { sessions := [("s1", ⟨"exited"⟩)],
        resumable := [("s1", ⟨"s1", "claude", none, some "tok",
          some "--resume", none⟩)],
        metaFiles := ["s1"] } "s1" ⟨"starting"⟩).2.2 ?_
    intro ex hex
    have h0 : lookupA "s1"
        ({ sessions := [("s1", ⟨"exited"⟩)],
           resumable := [("s1", ⟨"s1", "claude", none, some "tok",
             some "--resume", none⟩)],
           metaFiles := ["s1"] } : RegistryState).sessions
        = some (⟨"exited"⟩ : LiveSession) := by decide
    rw [h0] at hex
    injection hex with hex
    rw [← hex]
    decide

/-! ### Worktree branch selection (manager.py, WorktreeManager.create lines 204-249) -/

/-- The character class the safe-name transform keeps: [a-zA-Z0-9_.-]. -/
def isSafeChar (c : Char) : Bool :=
  (decide ('a' ≤ c) && decide (c ≤ 'z')) ||
  (decide ('A' ≤ c) && decide (c ≤ 'Z')) ||
  (decide ('0' ≤ c) && decide (c ≤ '9')) ||
  c == '_' || c == '.' || c == '-'

/-- Python str.strip(dash): remove leading and trailing dash characters. -/
def stripDashes (l : List Char) : List Char :=
  (dropW (fun c => c == '-') ((dropW (fun c => c == '-') l).reverse)).reverse

/-- safe_name = re.sub(non-[a-zA-Z0-9_.-] to dash, session_name).strip(dash). -/
def safeName (sessionName : List Char) : List Char :=
  stripDashes (sessionName.map (fun c => if isSafeChar c then c else '-'))

/-- The numbered branch candidate base-i (the f-string candidate). -/
def branchCand (base : List Char) (i : Nat) : List Char :=
  base ++ '-' :: (toString i).toList

/-- The collision loop of WorktreeManager.create: try base-i for each i in
order (the source iterates range(2, 100)); git rev-parse --verify raising
CalledProcessError — candidate free — is modelled by the oracle ex returning
false; when the loop exhausts, the for-else raises ValueError. -/
def firstFreeCand (ex : List Char → Bool) (base : List Char) :
    List Nat → Except String (List Char)
  | [] => .error "Too many branches"
  | i :: rest =>
      if ex (branchCand base i) then firstFreeCand ex base rest
      else .ok (branchCand base i)

/-- WorktreeManager.create branch choice: candidate conductor/<safe>; when
that branch already exists, try suffixes -2 through -99 in order; fail when
all are taken. -/
def chooseBranch (ex : List Char → Bool) (sessionName : List Char) :
    Except String (List Char) :=
  if ex ("conductor/".toList ++ safeName sessionName) then
    firstFreeCand ex ("conductor/".toList ++ safeName sessionName) (List.range' 2 98)
  else
    .ok ("conductor/".toList ++ safeName sessionName)

theorem firstFreeCand_all_taken {ex : List Char → Bool} {base : List Char} :
    ∀ is : List Nat, (∀ j ∈ is, ex (branchCand base j) = true) →
      firstFreeCand ex base is = .error "Too many branches" := by
  intro is
  induction is with
  | nil => intro _; rfl
  | cons i rest ih =>
      intro h
      unfold firstFreeCand
      rw [h i (List.mem_cons_self _ _)]
      exact ih (fun j hj => h j (List.mem_cons_of_mem _ hj))

theorem firstFreeCand_finds {ex : List Char → Bool} {base : List Char} :
    ∀ (pre : List Nat) (i : Nat) (rest : List Nat),
      (∀ j ∈ pre, ex (branchCand base j) = true) →
      ex (branchCand base i) = false →
      firstFreeCand ex base (pre ++ i :: rest) = .ok (branchCand base i) := by
  intro pre
  induction pre with
  | nil =>
      intro i rest _ hfree
      rw [List.nil_append]
      unfold firstFreeCand
      rw [hfree]
      rfl
  | cons j pre' ih =>
      intro i rest hpre hfree
      rw [List.cons_append]
      unfold firstFreeCand
      rw [hpre j (List.mem_cons_self _ _)]
      exact ih i rest (fun j' hj' => hpre j' (List.mem_cons_of_mem _ hj')) hfree

/-- Claim C8: the branch chosen for a session name is conductor/<safe>, where
safe replaces each character outside [A-Za-z0-9_.-] by a dash and strips
leading/trailing dashes; when that branch exists, suffixes -2 through -99 are
tried in order and the first free one is taken; when base and all 98
suffixed candidates exist, creation fails with an error. -/
theorem branch_selection_spec (ex : List Char → Bool) (name : List Char) :
    (safeName name
      = stripDashes (name.map (fun c => if isSafeChar c then c else '-'))) ∧
    (ex ("conductor/".toList ++ safeName name) = false →
      chooseBranch ex name = .ok ("conductor/".toList ++ safeName name)) ∧
    (∀ i, 2 ≤ i → i ≤ 99 →
      ex ("conductor/".toList ++ safeName name) = true →
      (∀ j, 2 ≤ j → j < i →
        ex (branchCand ("conductor/".toList ++ safeName name) j) = true) →
      ex (branchCand ("conductor/".toList ++ safeName name) i) = false →
      chooseBranch ex name
        = .ok (branchCand ("conductor/".toList ++ safeName name) i)) ∧
    (ex ("conductor/".toList ++ safeName name) = true →
      (∀ i, 2 ≤ i → i ≤ 99 →
        ex (branchCand ("conductor/".toList ++ safeName name) i) = true) →
      chooseBranch ex name = .error "Too many branches") := by
  refine ⟨rfl, ?_, ?_, ?_⟩
  · intro hfree
    unfold chooseBranch
    rw [hfree]
    rfl
  · intro i h2 h99 htaken hprev hfree
    unfold chooseBranch
    rw [htaken]
    have hsplit : List.range' 2 98
        = List.range' 2 (i - 2) ++ i :: List.range' (i + 1) (99 - i) := by
      have h1 : List.range' i (100 - i) = i :: List.range' (i + 1) (99 - i) := by
        have : 100 - i = (99 - i) + 1 := by omega
        rw [this, List.range'_succ]
      have h2' : List.range' 2 (i - 2) ++ List.range' (2 + 1 * (i - 2)) (100 - i)
          = List.range' 2 ((100 - i) + (i - 2)) := List.range'_append 2 (i - 2) (100 - i) 1
      have he1 : 2 + 1 * (i - 2) = i := by omega
      have he2 : (100 - i) + (i - 2) = 98 := by omega
      rw [he1, he2] at h2'
      rw [← h2', h1]
    rw [hsplit]
    refine firstFreeCand_finds _ i _ ?_ hfree
    intro j hj
    rw [List.mem_range'] at hj
    obtain ⟨k, hk, hkj⟩ := hj
    exact hprev j (by omega) (by omega)
  · intro htaken hall
    unfold chooseBranch
    rw [htaken]
    refine firstFreeCand_all_taken _ ?_
    intro j hj
    rw [List.mem_range'] at hj
    obtain ⟨k, hk, hkj⟩ := hj
    exact hall j (by omega) (by omega)

/-- Witness for claim C8 at the spec's example: with branch conductor/feat
already existing, creating a worktree for session feat picks
conductor/feat-2. -/
theorem branch_selection_witness :
    ((fun b => b == "conductor/feat".toList)
        ("conductor/".toList ++ safeName "feat".toList) = true ∧
     (fun b => b == "conductor/feat".toList)
        (branchCand ("conductor/".toList ++ safeName "feat".toList) 2) = false) ∧
    chooseBranch (fun b => b == "conductor/feat".toList) "feat".toList
      = .ok (branchCand ("conductor/".toList ++ safeName "feat".toList) 2) := by
  refine ⟨⟨by decide, by decide⟩, ?_⟩
  exact (branch_selection_spec (fun b => b == "conductor/feat".toList)
      "feat".toList).2.2.1 2 (by omega) (by omega) (by decide)
    (fun j hj hlt => by omega) (by decide)

/-! ### Worktree GC (manager.py, WorktreeManager.gc lines 814-862) -/

/-- The fields of a persisted worktree record that gc inspects (after the
source's dict .get defaults have been applied). -/
structure GcRec where
  status : String
  session_id : String
  last_activity : Rat
deriving DecidableEq

/-- The reason reported for a collected record; the source formats it as an
f-string ("orphaned (path missing)" or "stale (<status>, inactive > <days>d)"),
abstracted here to its informational content. -/
inductive GcReason
  | orphanedPathMissing
  | staleInactive : String → GcReason
deriving DecidableEq

/-- One row of the gc report. -/
structure GcAction where
  name : String
  repo : String
  status : String
  reason : GcReason
  action : String
deriving DecidableEq

/-- Whether gc collects a record: never when its session id is in the live
set; otherwise orphaned records always, finalized/stale records whose
last_activity is before the cutoff. -/
def gcCollects (active : List String) (cutoff : Rat) (r : GcRec) : Bool :=
  if active.contains r.session_id then false
  else if r.status == "orphaned" then true
  else if (r.status == "finalized" || r.status == "stale")
          && decide (r.last_activity < cutoff) then true
  else false

def gcReasonOf (r : GcRec) : GcReason :=
  if r.status == "orphaned" then .orphanedPathMissing else .staleInactive r.status

/-- The report rows produced while scanning one repo's worktree map. -/
def gcRepoActions (active : List String) (cutoff : Rat) (dryRun : Bool)
    (repo : String) : List (String × GcRec) → List GcAction
  | [] => []
  | (nm, r) :: rest =>
      (if gcCollects active cutoff r then
        [{ name := nm, repo := repo, status := r.status, reason := gcReasonOf r,
           action := if dryRun then "would remove" else "removed" }]
      else []) ++ gcRepoActions active cutoff dryRun repo rest

/-- The report rows over the whole state store. -/
def gcActions (active : List String) (cutoff : Rat) (dryRun : Bool) :
    List (String × List (String × GcRec)) → List GcAction
  | [] => []
  | (repo, wts) :: rest =>
      gcRepoActions active cutoff dryRun repo wts
        ++ gcActions active cutoff dryRun rest

/-- WorktreeManager.gc: cutoff = now - max_age_days * 86400; collect the
report; with dry_run the store is only read, otherwise every collected record
is removed (WorktreeManager.remove → wt_state.remove_worktree, which drops a
repo key once its map empties). -/
def gcRun (active : List String) (now maxAgeDays : Rat) (dryRun : Bool)
    (store : List (String × List (String × GcRec))) :
    List GcAction × List (String × List (String × GcRec)) :=
  if dryRun then (gcActions active (now - maxAgeDays * 86400) dryRun store, store)
  else
    (gcActions active (now - maxAgeDays * 86400) dryRun store,
     (store.map (fun rw =>
        (rw.1, rw.2.filter (fun nr =>
          !(gcCollects active (now - maxAgeDays * 86400) nr.2))))).filter
       (fun rw => !(rw.2.isEmpty)))

theorem gcCollects_iff {active : List String} {cutoff : Rat} {r : GcRec} :
    gcCollects active cutoff r = true ↔
    active.contains r.session_id = false ∧
    (r.status = "orphaned" ∨
      ((r.status = "finalized" ∨ r.status = "stale") ∧
        r.last_activity < cutoff)) := by
  unfold gcCollects
  cases h1 : active.contains r.session_id
  · rw [if_neg Bool.false_ne_true]
    cases h2 : r.status == "orphaned"
    · rw [if_neg Bool.false_ne_true]
      cases h3 : (r.status == "finalized" || r.status == "stale")
          && decide (r.last_activity < cutoff)
      · rw [if_neg Bool.false_ne_true]
        constructor
        · intro hx; cases hx
        · rintro ⟨_, hs | ⟨hor2, hlt⟩⟩
          · rw [hs] at h2
            simp at h2
          · have hX : (r.status == "finalized" || r.status == "stale") = true := by
              rcases hor2 with h | h <;> simp [h]
            have hY : decide (r.last_activity < cutoff) = true := decide_eq_true hlt
            rw [hX, hY] at h3
            simp at h3
      · rw [if_pos rfl]
        simp only [Bool.and_eq_true, Bool.or_eq_true, beq_iff_eq,
          decide_eq_true_eq] at h3
        exact ⟨fun _ => ⟨rfl, Or.inr h3⟩, fun _ => rfl⟩
    · rw [if_pos rfl]
      simp only [beq_iff_eq] at h2
      exact ⟨fun _ => ⟨rfl, Or.inl h2⟩, fun _ => rfl⟩
  · rw [if_pos rfl]
    constructor
    · intro hx; cases hx
    · rintro ⟨hc, _⟩; cases hc

theorem mem_gcRepoActions {active : List String} {cutoff : Rat} {dryRun : Bool}
    {repo : String} {a : GcAction} :
    ∀ wts : List (String × GcRec),
      a ∈ gcRepoActions active cutoff dryRun repo wts ↔
      ∃ nm r, (nm, r) ∈ wts ∧ gcCollects active cutoff r = true ∧
        a = { name := nm, repo := repo, status := r.status,
              reason := gcReasonOf r,
              action := if dryRun then "would remove" else "removed" } := by
  intro wts
  induction wts with
  | nil => simp [gcRepoActions]
  | cons nr rest ih =>
      obtain ⟨nm, r⟩ := nr
      unfold gcRepoActions
      rw [List.mem_append]
      cases hc : gcCollects active cutoff r
      · simp only [Bool.false_eq_true, if_false, List.not_mem_nil, false_or, ih]
        constructor
        · rintro ⟨nm', r', hmem, hcol, ha⟩
          exact ⟨nm', r', List.mem_cons_of_mem _ hmem, hcol, ha⟩
        · rintro ⟨nm', r', hmem, hcol, ha⟩
          rcases List.mem_cons.mp hmem with heq | hmem'
          · rw [Prod.mk.injEq] at heq
            obtain ⟨rfl, rfl⟩ := heq
            rw [hc] at hcol
            cases hcol
          · exact ⟨nm', r', hmem', hcol, ha⟩
      · simp only [if_true, List.mem_singleton, ih]
        constructor
        · rintro (ha | ⟨nm', r', hmem, hcol, ha⟩)
          · exact ⟨nm, r, List.mem_cons_self _ _, hc, ha⟩
          · exact ⟨nm', r', List.mem_cons_of_mem _ hmem, hcol, ha⟩
        · rintro ⟨nm', r', hmem, hcol, ha⟩
          rcases List.mem_cons.mp hmem with heq | hmem'
          · rw [Prod.mk.injEq] at heq
            obtain ⟨rfl, rfl⟩ := heq
            exact Or.inl ha
          · exact Or.inr ⟨nm', r', hmem', hcol, ha⟩

theorem mem_gcActions {active : List String} {cutoff : Rat} {dryRun : Bool}
    {a : GcAction} :
    ∀ store : List (String × List (String × GcRec)),
      a ∈ gcActions active cutoff dryRun store ↔
      ∃ repo wts nm r, (repo, wts) ∈ store ∧ (nm, r) ∈ wts ∧
        gcCollects active cutoff r = true ∧
        a = { name := nm, repo := repo, status := r.status,
              reason := gcReasonOf r,
              action := if dryRun then "would remove" else "removed" } := by
  intro store
  induction store with
  | nil => simp [gcActions]
  | cons rw rest ih =>
      obtain ⟨repo, wts⟩ := rw
      unfold gcActions
      rw [List.mem_append, mem_gcRepoActions wts, ih]
      constructor
      · rintro (⟨nm, r, hmem, hcol, ha⟩ | ⟨repo', wts', nm, r, hmem, hw, hcol, ha⟩)
        · exact ⟨repo, wts, nm, r, List.mem_cons_self _ _, hmem, hcol, ha⟩
        · exact ⟨repo', wts', nm, r, List.mem_cons_of_mem _ hmem, hw, hcol, ha⟩
      · rintro ⟨repo', wts', nm, r, hmem, hw, hcol, ha⟩
        rcases List.mem_cons.mp hmem with heq | hmem'
        · rw [Prod.mk.injEq] at heq
          obtain ⟨rfl, rfl⟩ := heq
          exact Or.inl ⟨nm, r, hw, hcol, ha⟩
        · exact Or.inr ⟨repo', wts', nm, r, hmem', hw, hcol, ha⟩

/-- Claim C9: gc with dry_run=true leaves the state store entirely unchanged,
every reported row carries action "would remove", and the rows are exactly
the records whose session_id is not in the live set and that are orphaned
(at any age) or finalized/stale with last_activity older than max_age_days. -/
theorem gc_dry_run_spec (active : List String) (now maxAgeDays : Rat)
    (store : List (String × List (String × GcRec))) :
    (gcRun active now maxAgeDays true store).2 = store ∧
    (∀ a ∈ (gcRun active now maxAgeDays true store).1, a.action = "would remove") ∧
    (∀ a, a ∈ (gcRun active now maxAgeDays true store).1 ↔
      ∃ repo wts nm r, (repo, wts) ∈ store ∧ (nm, r) ∈ wts ∧
        active.contains r.session_id = false ∧
        (r.status = "orphaned" ∨
          ((r.status = "finalized" ∨ r.status = "stale") ∧
            r.last_activity < now - maxAgeDays * 86400)) ∧
        a = { name := nm, repo := repo, status := r.status,
              reason := gcReasonOf r, action := "would remove" }) := by
  refine ⟨rfl, ?_, ?_⟩
  · intro a ha
    rw [show (gcRun active now maxAgeDays true store).1
        = gcActions active (now - maxAgeDays * 86400) true store from rfl,
      mem_gcActions store] at ha
    obtain ⟨_, _, _, _, _, _, _, ha⟩ := ha
    rw [ha]
    rfl
  · intro a
    rw [show (gcRun active now maxAgeDays true store).1
        = gcActions active (now - maxAgeDays * 86400) true store from rfl,
      mem_gcActions store]
    constructor
    · rintro ⟨repo, wts, nm, r, hmem, hw, hcol, ha⟩
      obtain ⟨h1, h2⟩ := gcCollects_iff.mp hcol
      exact ⟨repo, wts, nm, r, hmem, hw, h1, h2, ha⟩
    · rintro ⟨repo, wts, nm, r, hmem, hw, h1, h2, ha⟩
      exact ⟨repo, wts, nm, r, hmem, hw, gcCollects_iff.mpr ⟨h1, h2⟩, ha⟩

/-- Witness for claim C9, the spec's GC dry-run example: an orphaned record
and a 10-day-old finalized record, max_age_days = 7, now = 1000000 — both
rows appear with action "would remove" and the store is unchanged. -/
theorem gc_dry_run_witness :
    ((⟨"orphaned", "s1", 999999⟩ : GcRec).status = "orphaned" ∧
     ([] : List String).contains "s1" = false ∧
     ("w1", (⟨"orphaned", "s1", 999999⟩ : GcRec))
        ∈ [("w1", (⟨"orphaned", "s1", 999999⟩ : GcRec)),
           ("w2", (⟨"finalized", "s2", 136000⟩ : GcRec))]) ∧
    ((gcRun [] 1000000 7 true
        [("repo1", [("w1", ⟨"orphaned", "s1", 999999⟩),
                    ("w2", ⟨"finalized", "s2", 136000⟩)])]).2
      = [("repo1", [("w1", ⟨"orphaned", "s1", 999999⟩),
                    ("w2", ⟨"finalized", "s2", 136000⟩)])] ∧
     { name := "w1", repo := "repo1", status := "orphaned",
       reason := GcReason.orphanedPathMissing, action := "would remove" }
        ∈ (gcRun [] 1000000 7 true
            [("repo1", [("w1", ⟨"orphaned", "s1", 999999⟩),
                        ("w2", ⟨"finalized", "s2", 136000⟩)])]).1) := by
  refine ⟨⟨rfl, by decide, by decide⟩, ?_, ?_⟩
  · exact (gc_dry_run_spec [] 1000000 7
      [("repo1", [("w1", ⟨"orphaned", "s1", 999999⟩),
                  ("w2", ⟨"finalized", "s2", 136000⟩)])]).1
  · refine ((gc_dry_run_spec [] 1000000 7
      [("repo1", [("w1", ⟨"orphaned", "s1", 999999⟩),
                  ("w2", ⟨"finalized", "s2", 136000⟩)])]).2.2 _).mpr ?_
    exact ⟨"repo1",
      [("w1", ⟨"orphaned", "s1", 999999⟩), ("w2", ⟨"finalized", "s2", 136000⟩)],
      "w1", ⟨"orphaned", "s1", 999999⟩, by decide, by decide,
      by decide, Or.inl rfl, rfl⟩

/-! ### WorktreeInfo serialization (manager.py lines 58-81) -/

/-- A Python value as stored in a worktree state record: string, float,
int, or bool. -/
inductive PyVal
  | s : String → PyVal
  | f : Rat → PyVal
  | i : Int → PyVal
  | b : Bool → PyVal
deriving DecidableEq

/-- The WorktreeInfo dataclass, fields in declaration order. -/
structure WorktreeInfo where
  name : String
  repo_path : String
  worktree_path : String
  branch : String
  base_branch : String
  base_commit : String
  session_id : String
  created_at : Rat
  status : String
  last_activity : Rat
  commits_ahead : Int
  has_changes : Bool
deriving DecidableEq

/-- dataclasses.asdict(self): every field, in declaration order. -/
def WorktreeInfo.toDict (w : WorktreeInfo) : List (String × PyVal) :=
  [("name", .s w.name), ("repo_path", .s w.repo_path),
   ("worktree_path", .s w.worktree_path), ("branch", .s w.branch),
   ("base_branch", .s w.base_branch), ("base_commit", .s w.base_commit),
   ("session_id", .s w.session_id), ("created_at", .f w.created_at),
   ("status", .s w.status), ("last_activity", .f w.last_activity),
   ("commits_ahead", .i w.commits_ahead), ("has_changes", .b w.has_changes)]

/-- cls.__dataclass_fields__: the known field names. -/
def wtKnownFields : List String :=
  ["name", "repo_path", "worktree_path", "branch", "base_branch",
   "base_commit", "session_id", "created_at", "status", "last_activity",
   "commits_ahead", "has_changes"]

def getStr (d : List (String × PyVal)) (k : String) : Option String :=
  match lookupA k d with | some (.s v) => some v | _ => none

def getRat (d : List (String × PyVal)) (k : String) : Option Rat :=
  match lookupA k d with | some (.f v) => some v | _ => none

def getInt (d : List (String × PyVal)) (k : String) : Option Int :=
  match lookupA k d with | some (.i v) => some v | _ => none

def getBool (d : List (String × PyVal)) (k : String) : Option Bool :=
  match lookupA k d with | some (.b v) => some v | _ => none

/-- cls(**filtered): the eight fields without defaults must be present
(otherwise Python raises TypeError, modelled as none); the four fields with
defaults fall back to the dataclass defaults.  A present field of the wrong
dynamic type would be accepted by Python's untyped constructor but is
rejected here; records produced by to_dict are always well-typed. -/
def WorktreeInfo.fromKnown (d : List (String × PyVal)) : Option WorktreeInfo := do
  let nm ← getStr d "name"
  let rp ← getStr d "repo_path"
  let wp ← getStr d "worktree_path"
  let br ← getStr d "branch"
  let bb ← getStr d "base_branch"
  let bc ← getStr d "base_commit"
  let sid ← getStr d "session_id"
  let ca ← getRat d "created_at"
  pure { name := nm, repo_path := rp, worktree_path := wp, branch := br
         base_branch := bb, base_commit := bc, session_id := sid
         created_at := ca
         status := (getStr d "status").getD "active"
         last_activity := (getRat d "last_activity").getD 0
         commits_ahead := (getInt d "commits_ahead").getD 0
         has_changes := (getBool d "has_changes").getD false }

/-- WorktreeInfo.from_dict: filter the dict to the known field names, then
construct. -/
def WorktreeInfo.fromDict (d : List (String × PyVal)) : Option WorktreeInfo :=
  WorktreeInfo.fromKnown (d.filter (fun kv => wtKnownFields.contains kv.1))

theorem filter_eq_nil_of_all_neg {α : Type} (p : α → Bool) (l : List α)
    (h : l.all (fun x => !(p x)) = true) : l.filter p = [] := by
  induction l with
  | nil => rfl
  | cons x xs ih =>
      simp only [List.all_cons, Bool.and_eq_true, Bool.not_eq_true'] at h
      rw [List.filter_cons, h.1]
      exact ih (by
        rw [List.all_eq_true]
        intro y hy
        rw [List.all_eq_true] at *
        have := h.2 y hy
        simpa using this)

/-- Claim C10: from_dict inverts to_dict, and from_dict on a dict extended
with unknown keys ignores them instead of failing, so records written by
newer versions round-trip through the state store. -/
theorem worktree_info_roundtrip (w : WorktreeInfo)
    (extra : List (String × PyVal))
    (hextra : extra.all (fun kv => !(wtKnownFields.contains kv.1)) = true) :
    WorktreeInfo.fromDict w.toDict = some w ∧
    WorktreeInfo.fromDict (w.toDict ++ extra) = some w := by
  have e1 : WorktreeInfo.fromDict w.toDict = some w := rfl
  refine ⟨e1, ?_⟩
  unfold WorktreeInfo.fromDict at e1 ⊢
  rw [List.filter_append,
    filter_eq_nil_of_all_neg _ extra hextra, List.append_nil]
  exact e1

/-- Witness for claim C10 at a concrete record with one unknown extra key. -/
theorem worktree_info_roundtrip_witness :
    ([(("future_field" : String), PyVal.s "x")].all
        (fun kv => !(wtKnownFields.contains kv.1)) = true) ∧
    (WorktreeInfo.fromDict
        (WorktreeInfo.toDict
          ⟨"feat", "/r", "/r/.conductor-worktrees/feat", "conductor/feat",
           "main", "abc123", "feat", 5, "active", 7, 2, true⟩)
      = some ⟨"feat", "/r", "/r/.conductor-worktrees/feat", "conductor/feat",
              "main", "abc123", "feat", 5, "active", 7, 2, true⟩ ∧
     WorktreeInfo.fromDict
        (WorktreeInfo.toDict
          ⟨"feat", "/r", "/r/.conductor-worktrees/feat", "conductor/feat",
           "main", "abc123", "feat", 5, "active", 7, 2, true⟩
          ++ [("future_field", PyVal.s "x")])
      = some ⟨"feat", "/r", "/r/.conductor-worktrees/feat", "conductor/feat",
              "main", "abc123", "feat", 5, "active", 7, 2, true⟩) := by
  refine ⟨by decide, ?_⟩
  exact worktree_info_roundtrip
    ⟨"feat", "/r", "/r/.conductor-worktrees/feat", "conductor/feat",
     "main", "abc123", "feat", 5, "active", 7, 2, true⟩
    [("future_field", PyVal.s "x")] (by decide)

/-! ### Exit-monitor resume-token extraction (session.py lines 190-250) -/

/-- Scan for a BEL byte (the OSC terminator), returning the remainder. -/
def afterBel : List Char → Option (List Char)
  | [] => none
  | c :: r => if c = '\x07' then some r else afterBel r

/-- One alternative of the ANSI-strip regex after the ESC byte, in the
source's alternation order: CSI, OSC, charset select, keypad modes, line
attributes, then any single character (which does not match a newline).
Returns the remainder after the matched payload, or none when nothing
matches and the ESC is kept. -/
def ansiAlt : List Char → Option (List Char)
  | [] => none
  | c :: rest =>
      if c = '[' then
        match dropW (fun d => d.isDigit || d == ';') rest with
        | d :: r2 =>
            if (decide ('a' ≤ d) && decide (d ≤ 'z'))
                || (decide ('A' ≤ d) && decide (d ≤ 'Z')) then some r2
            else some rest
        | [] => some rest
      else if c = ']' then
        match afterBel rest with
        | some r2 => some r2
        | none => some rest
      else if c = '(' ∨ c = ')' then
        match rest with
        | d :: r2 =>
            if d ∈ (['A', 'B', '0', '1', '2'] : List Char) then some r2
            else some rest
        | [] => some rest
      else if c = '>' ∨ c = '=' ∨ c = '<' then some rest
      else if c = '#' then
        match rest with
        | d :: r2 => if d.isDigit then some r2 else some rest
        | [] => some rest
      else if c = '\n' then none
      else some rest

/-- Fuelled re.sub of the ANSI regex with the empty string: at each ESC try
the alternation and splice it out; other characters are kept. -/
def ansiStripF : Nat → List Char → List Char
  | 0, l => l
  | _ + 1, [] => []
  | fuel + 1, c :: rest =>
      if c = '\x1b' then
        match ansiAlt rest with
        | some r2 => ansiStripF fuel r2
        | none => c :: ansiStripF fuel rest
      else c :: ansiStripF fuel rest

def ansiStrip (l : List Char) : List Char := ansiStripF l.length l

/-- A match attempt of the default resume pattern — the literal "--resume",
whitespace, then a captured maximal nonblank token — at the current
position. -/
def tryResumeAt (l : List Char) : Option (List Char) :=
  if isPre "--resume".toList l then
    match l.drop "--resume".toList.length with
    | [] => none
    | c :: rest =>
        if isSp c then
          match dropW isSp (c :: rest) with
          | [] => none
          | d :: r2 => some (List.takeWhile (fun x => !(isSp x)) (d :: r2))
        else none
  else none

/-- re.search of the default resume pattern: the leftmost match wins. -/
def defaultResumeSearch : List Char → Option (List Char)
  | [] => none
  | c :: rest =>
      match tryResumeAt (c :: rest) with
      | some tok => some tok
      | none => defaultResumeSearch rest

/-- Session._extract_resume_id: take the last 4 KiB of the buffer, strip ANSI
escapes, then search the per-command compiled pattern (modelled by its search
function) or the default pattern; the first capture group becomes the resume
id.  UTF-8 decoding with errors="replace" is the identity on this
character-level model. -/
def extractResumeId (pattern : Option (List Char → Option (List Char)))
    (buffer : List Char) : Option (List Char) :=
  (pattern.getD defaultResumeSearch)
    (ansiStrip (buffer.drop (buffer.length - 4096)))

/-- The fields of a session observable around exit. -/
structure MonState where
  status : String
  resumeId : Option (List Char)
  buffer : List Char

/-- Session._monitor_process once poll() has reported an exit code, as its
sequence of observable states: at exit detection, after the final drain
(each chunk appended through _append_buffer), after _extract_resume_id
(resume_id is only assigned when a match is found), after status := "exited",
in the source's statement order; the subsequent exit broadcast and sentinel
do not change these fields.  Status is not touched before extraction. -/
def monitorObservations (pattern : Option (List Char → Option (List Char)))
    (maxBytes : Nat) (st0 : MonState) (drain : List (List Char)) :
    List MonState :=
  let stDrained : MonState :=
    { st0 with buffer := drain.foldl (appendBuffer maxBytes) st0.buffer }
  let stExtracted : MonState :=
    { stDrained with
      resumeId :=
        match extractResumeId pattern stDrained.buffer with
        | some tok => some tok
        | none => stDrained.resumeId }
  let stExited : MonState := { stExtracted with status := "exited" }
  [st0, stDrained, stExtracted, stExited]

/-- Claim C5: in the exit monitor the final drain and token extraction
complete and assign resume_id strictly before status is set to "exited", so
no observation point shows status "exited" with resume_id unset when the
drained buffer yields a token. -/
theorem exit_monitor_orders_extraction
    (pattern : Option (List Char → Option (List Char))) (maxBytes : Nat)
    (st0 : MonState) (drain : List (List Char)) (tok : List Char)
    (h0 : st0.status ≠ "exited")
    (hfound : extractResumeId pattern
        (drain.foldl (appendBuffer maxBytes) st0.buffer) = some tok) :
    ∀ st ∈ monitorObservations pattern maxBytes st0 drain,
      st.status = "exited" → st.resumeId = some tok := by
  intro st hst hexited
  unfold monitorObservations at hst
  simp only [List.mem_cons, List.not_mem_nil, or_false] at hst
  rcases hst with rfl | rfl | rfl | rfl
  · exact absurd hexited h0
  · exact absurd hexited h0
  · exact absurd hexited h0
  · show (match extractResumeId pattern
        (drain.foldl (appendBuffer maxBytes) st0.buffer) with
      | some tok => some tok
      | none => st0.resumeId) = some tok
    rw [hfound]

/-- Witness for claim C5: a stopping session whose buffer holds a resume line
wrapped in color escapes; at the exited observation point, resume_id is the
extracted token ABC123. -/
theorem exit_monitor_orders_extraction_witness :
    (({ status := "stopping", resumeId := none,
        buffer := "hi \x1b[31mUse --resume ABC123\x1b[0m done".toList } :
          MonState).status ≠ "exited" ∧
     extractResumeId none
        (List.foldl (appendBuffer 1000000)
          ("hi \x1b[31mUse --resume ABC123\x1b[0m done".toList) [])
       = some "ABC123".toList) ∧
    (∀ st ∈ monitorObservations none 1000000
        { status := "stopping", resumeId := none,
          buffer := "hi \x1b[31mUse --resume ABC123\x1b[0m done".toList } [],
      st.status = "exited" → st.resumeId = some "ABC123".toList) := by
  refine ⟨⟨by decide, by decide⟩, ?_⟩
  exact exit_monitor_orders_extraction none 1000000
    { status := "stopping", resumeId := none,
      buffer := "hi \x1b[31mUse --resume ABC123\x1b[0m done".toList }
    [] "ABC123".toList (by decide) (by decide)

/-! ### Subscriber queue sentinel ordering (session.py, registry.py)

In the event-loop model every put_nowait region of the source is atomic:
the monitor's post-exit region (session.py lines 240-250) performs drain
broadcasts, the exit message, the None sentinel and the exit callback with no
intervening await before the sentinel, and registry.remove (registry.py lines
185-190) runs kill() — whose only put is the sentinel — and then cleanup(),
which cancels the monitor task before any yield point, so a cancelled monitor
never reaches its own puts.  session.kill() has no other caller (the API stop
and kill routes call registry.remove), and once the monitor's protocol has
run, its exit callback has already popped the session, so a later remove()
finds no session and enqueues nothing. -/

/-- An item placed on a subscriber queue by put_nowait: a data chunk or the
terminal None sentinel. -/
inductive QItem
  | data : List Nat → QItem
  | sentinel
deriving DecidableEq

/-- The bytes of the exit message broadcast before the sentinel. -/
def exitMsgBytes : List Nat :=
  "\r\n[Process exited]\r\n".toList.map Char.toNat

/-- How a session's life ends: the child process exits (covering normal exit,
graceful stop via interrupt/stop-sequence, and the escalation kill, all of
which end with the monitor's exit protocol), or registry.remove() kills the
session while live and cancels the monitor. -/
inductive ExitPath
  | processExit
  | removedWhileLive
deriving DecidableEq

/-- The complete sequence of put_nowait items one subscriber queue sees for a
session, per exit path: the live broadcast chunks, then for a process exit
the drained chunks, the exit message, and the None sentinel; for a remove,
kill() enqueues only the sentinel and the cancelled monitor adds nothing. -/
def subscriberPuts : ExitPath → List (List Nat) → List (List Nat) → List QItem
  | .processExit, live, drained =>
      live.map QItem.data ++ drained.map QItem.data
        ++ [QItem.data exitMsgBytes, QItem.sentinel]
  | .removedWhileLive, live, _ => live.map QItem.data ++ [QItem.sentinel]

theorem all_data_map (l : List (List Nat)) :
    (l.map QItem.data).all (fun q => !(q == QItem.sentinel)) = true := by
  induction l with
  | nil => rfl
  | cons x xs ih =>
      rw [List.map_cons, List.all_cons, ih]
      rfl

/-- Claim C6: over every exit path — normal exit, graceful stop, and kill —
the null sentinel is the last item put on each subscriber queue, and no
chunk, exit message, or second sentinel is ever enqueued after it. -/
theorem sentinel_is_last_put (path : ExitPath) (live drained : List (List Nat)) :
    (subscriberPuts path live drained).getLast? = some QItem.sentinel ∧
    (subscriberPuts path live drained).dropLast.all
      (fun q => !(q == QItem.sentinel)) = true := by
  cases path
  · have hsh : subscriberPuts ExitPath.processExit live drained
        = (live.map QItem.data ++ drained.map QItem.data
            ++ [QItem.data exitMsgBytes]) ++ [QItem.sentinel] := by
      unfold subscriberPuts
      simp [List.append_assoc]
    rw [hsh, List.getLast?_concat, List.dropLast_concat]
    refine ⟨rfl, ?_⟩
    rw [List.all_append, List.all_append, all_data_map, all_data_map]
    rfl
  · have hsh : subscriberPuts ExitPath.removedWhileLive live drained
        = live.map QItem.data ++ [QItem.sentinel] := rfl
    rw [hsh, List.getLast?_concat, List.dropLast_concat]
    exact ⟨rfl, all_data_map live⟩

end Conductor
